import Mathlib

/-!
Verification of the air_quality delivery pipeline and dashboard frontend.

The frontend code (history query hook, filter store, metric chart) is embedded
directly from the TypeScript sources.  The core pipeline (BoundedQueue,
BufferWriter, BufferedPusher, DeliveryLoop, BackoffPolicy, OverflowPolicy) is
not present in the source tree — only its architecture diagram and the spec
describe it — so those components are modelled from the spec (each such
definition carries a `Modelled from the spec:` doc comment).
-/

namespace AirQuality

/-! ## Core data model (modelled from the spec, §3) -/

/-- Modelled from the spec: record status in the durable ring,
`status ∈ {pending, sent}` (BufferWriter is missing from src/). -/
inductive Status where
  | pending
  | sent
deriving DecidableEq, Repr

/-- Modelled from the spec: a Reading is an immutable sensor value with
device identifier, timestamp, and value (sensor code is missing from src/). -/
structure Reading where
  device_id : String
  ts : Nat
  value : Int
deriving DecidableEq, Repr

/-- Modelled from the spec: a BufferRecord wraps a Reading with a monotonically
increasing sequence id, a status, and the insertion time (§3). -/
structure BufferRecord where
  id : Nat
  reading : Reading
  status : Status
  inserted_at : Nat
deriving DecidableEq, Repr

/-! ## BufferWriter: durable ring (modelled from the spec, §4.4) -/

/-- Modelled from the spec: the durable ring state of BufferWriter — a fixed
capacity, the next monotonic id, and the stored records in insertion order. -/
structure Ring where
  capacity : Nat
  nextId : Nat
  records : List BufferRecord
deriving DecidableEq, Repr

/-- Modelled from the spec: number of unsent records currently in the ring. -/
def Ring.pendingCount (r : Ring) : Nat :=
  (r.records.filter (fun rec => rec.status == Status.pending)).length

/-- Modelled from the spec: `append(reading)` assigns the next monotonic id and
persists a pending record; it fails (DurabilityError, here `none`) when the
ring capacity is exhausted on unsent records (§4.4). -/
def Ring.append (r : Ring) (rd : Reading) (t : Nat) : Option (Ring × BufferRecord) :=
  if r.pendingCount < r.capacity then
    let rcd : BufferRecord := ⟨r.nextId, rd, Status.pending, t⟩
    some ({ r with nextId := r.nextId + 1, records := r.records ++ [rcd] }, rcd)
  else
    none

/-- Modelled from the spec: `mark_sent(id)` retires the record with that id;
idempotent; no-op if already marked or unknown id (§4.4). -/
def Ring.mark_sent (r : Ring) (id : Nat) : Ring :=
  { r with
    records := r.records.map fun rec =>
      if rec.id = id then { rec with status := Status.sent } else rec }

/-- Modelled from the spec: `iterate_pending()` yields the pending records of
the ring, in storage (ascending id) order (§4.4). -/
def Ring.iterate_pending (r : Ring) : List BufferRecord :=
  r.records.filter (fun rec => rec.status == Status.pending)

/-- Modelled from the spec: the single-writer operations applied to the ring by
the consumer thread — an append or a mark_sent. -/
inductive RingOp where
  | app (rd : Reading) (t : Nat)
  | mark (id : Nat)

/-- Modelled from the spec: applying one ring operation (a failed append leaves
the ring unchanged). -/
def Ring.applyOp (r : Ring) : RingOp → Ring
  | RingOp.app rd t =>
      match r.append rd t with
      | some (r2, _) => r2
      | none => r
  | RingOp.mark i => r.mark_sent i

/-- Ring well-formedness: record ids are strictly increasing in storage order
(spec §3 invariant: ids unique and strictly increasing). -/
def RingWf (r : Ring) : Prop :=
  (r.records.map (fun rec => rec.id)).Pairwise (· < ·)

instance (r : Ring) : Decidable (RingWf r) := by
  unfold RingWf; infer_instance

/-- The record with id `i` is present in the ring with status sent. -/
def sentIn (r : Ring) (i : Nat) : Prop :=
  ∃ rec ∈ r.records, rec.id = i ∧ rec.status = Status.sent

instance (r : Ring) (i : Nat) : Decidable (sentIn r i) := by
  unfold sentIn; infer_instance

/-- Modelled from the spec: startup resend order — the pending backlog ids
(from `iterate_pending`) are attempted before any newly arriving reading
(§4.4). -/
def startupAttemptIds (r : Ring) (newIds : List Nat) : List Nat :=
  r.iterate_pending.map (fun rec => rec.id) ++ newIds

/-! ## BufferedPusher / DeliveryLoop event trace (modelled from the spec,
§4.2–§4.3) -/

/-- Modelled from the spec: observable calls made by BufferedPusher into
BufferWriter and MessagePusher while delivering one reading. -/
inductive Ev where
  | append (id : Nat)
  | publish (id : Nat)
  | markSent (id : Nat)
deriving DecidableEq, Repr

/-- The record id an event refers to. -/
def Ev.evId : Ev → Nat
  | Ev.append i => i
  | Ev.publish i => i
  | Ev.markSent i => i

/-- Whether an event is an append. -/
def Ev.isAppend : Ev → Bool
  | Ev.append _ => true
  | _ => false

/-- Modelled from the spec: the publish/retry phase for one durable record.
`ack n` says whether the broker acknowledges the publish at attempt `n`.
Each attempt republishes the same record id; on acknowledgment,
`mark_sent` is called and the phase reports success; on failure the loop
retries (backoff elided — it does not change the call sequence), bounded
here by `fuel` (the retry horizon). -/
def publishAttempts (ack : Nat → Bool) (id : Nat) : Nat → Nat → List Ev × Bool
  | _, 0 => ([], false)
  | attempt, fuel + 1 =>
      if ack attempt then
        ([Ev.publish id, Ev.markSent id], true)
      else
        let r := publishAttempts ack id (attempt + 1) fuel
        (Ev.publish id :: r.1, r.2)

/-- Modelled from the spec: delivering one reading whose `append` succeeded
with record id `id` — the durability phase emits one `append`, then the
publish phase retries until acknowledged or the horizon `fuel` is spent. -/
def deliverOne (ack : Nat → Bool) (id fuel : Nat) : List Ev × Bool :=
  let r := publishAttempts ack id 0 fuel
  (Ev.append id :: r.1, r.2)

/-! ## BoundedQueue and OverflowPolicy (modelled from the spec, §4.1, §4.7) -/

/-- Modelled from the spec: the tagged overflow policy choice (§4.7). -/
inductive OverflowPolicy where
  | block
  | dropOldest
  | rejectNewest
deriving DecidableEq, Repr

/-- Modelled from the spec: a fixed-capacity FIFO queue; head of `items` is the
oldest element. -/
structure BoundedQueue (α : Type) where
  capacity : Nat
  items : List α
deriving DecidableEq, Repr

/-- Modelled from the spec: the observable outcome of an enqueue — admitted,
rejected (signaled overflow event carrying the refused item), or the producer
would block. -/
inductive EnqResult (α : Type) where
  | ok (q : BoundedQueue α)
  | rejected (q : BoundedQueue α) (item : α)
  | wouldBlock (q : BoundedQueue α) (item : α)
deriving DecidableEq, Repr

/-- Modelled from the spec: `enqueue` appends when there is room; on a full
queue the policy decides — Block suspends, DropOldest evicts the head and
admits the new item, RejectNewest refuses the new item and reports it (§4.1). -/
def enqueue {α : Type} (pol : OverflowPolicy) (q : BoundedQueue α) (x : α) : EnqResult α :=
  if q.items.length < q.capacity then
    EnqResult.ok { q with items := q.items ++ [x] }
  else
    match pol with
    | OverflowPolicy.block => EnqResult.wouldBlock q x
    | OverflowPolicy.dropOldest => EnqResult.ok { q with items := q.items.tail ++ [x] }
    | OverflowPolicy.rejectNewest => EnqResult.rejected q x

/-- Modelled from the spec: `dequeue` removes and returns the head (oldest)
item in strict FIFO order; `none` when the queue is empty. -/
def dequeue {α : Type} (q : BoundedQueue α) : Option (α × BoundedQueue α) :=
  match q.items with
  | [] => none
  | x :: rest => some (x, { q with items := rest })

/-- Enqueue under DropOldest, keeping only the resulting queue (on a full
queue the head is evicted, so the new item is always admitted). -/
def enqueueDrop {α : Type} (q : BoundedQueue α) (x : α) : BoundedQueue α :=
  match enqueue OverflowPolicy.dropOldest q x with
  | EnqResult.ok q2 => q2
  | EnqResult.rejected q2 _ => q2
  | EnqResult.wouldBlock q2 _ => q2

/-! ## BackoffPolicy and DeliveryLoop counter (modelled from the spec, §4.2,
§4.6) -/

/-- Modelled from the spec: swappable pure backoff strategies — constant,
linear, exponential, each capped at a configurable ceiling (§4.6; the
spec mentions optional jitter, a source of randomness outside this pure
model). -/
inductive BackoffPolicy where
  | const (d : Nat)
  | linear (step ceiling : Nat)
  | expo (base ceiling : Nat)
deriving DecidableEq, Repr

/-- Modelled from the spec: the pure map from consecutive-failure count to
retry delay, non-decreasing up to the ceiling. -/
def BackoffPolicy.delay : BackoffPolicy → Nat → Nat
  | BackoffPolicy.const d, _ => d
  | BackoffPolicy.linear s c, n => min (s * n) c
  | BackoffPolicy.expo b c, n => min (b * 2 ^ n) c

/-- Modelled from the spec: the only DeliveryLoop state — the consecutive
failure counter for the current in-flight item (§4.2). -/
structure LoopState where
  failures : Nat
deriving DecidableEq, Repr

/-- Modelled from the spec: the two-valued result of `OutboundPort.send`. -/
inductive SendResult where
  | acked
  | failed
deriving DecidableEq, Repr

/-- Modelled from the spec: counter update — on `Acked` the failure counter
resets; on failure it is incremented after the backoff delay (§4.2). -/
def LoopState.step (s : LoopState) : SendResult → LoopState
  | SendResult.acked => { failures := 0 }
  | SendResult.failed => { failures := s.failures + 1 }

/-- Modelled from the spec: the delay DeliveryLoop would apply next, computed
from the policy at the current failure counter. -/
def nextDelay (p : BackoffPolicy) (s : LoopState) : Nat :=
  p.delay s.failures

end AirQuality

namespace Frontend

/-- The three metric kinds of the dashboard (`useFilters.ts`). -/
inductive Metric where
  | pm1
  | pm25
  | pm10
deriving DecidableEq, Repr

/-- The wire name of a metric, as used in query strings. -/
def Metric.key : Metric → String
  | Metric.pm1 => "pm1"
  | Metric.pm25 => "pm25"
  | Metric.pm10 => "pm10"

/-- The filter store state of `useFilters.ts` (mutators are modelled as
functions below; `from`/`to` are ISO-8601 strings, empty meaning unset). -/
structure Filters where
  room : String
  metrics : List Metric
  fromStr : String
  toStr : String
  live : Bool

/-- The query parameters `useHistory` sets on the `/history` URL, in the order
the code sets them: `room` always, `from`/`to` only when truthy (non-empty),
`metrics` always (joined with commas). -/
def historyQueryParams (f : Filters) : List (String × String) :=
  [("room", f.room)]
    ++ (if f.fromStr ≠ "" then [("from", f.fromStr)] else [])
    ++ (if f.toStr ≠ "" then [("to", f.toStr)] else [])
    ++ [("metrics", String.intercalate "," (f.metrics.map Metric.key))]

/-- The `toggleMetric` mutator of `useFilters.ts`: remove the metric if
present, else push it at the end. -/
def toggleMetric (m : Metric) (ms : List Metric) : List Metric :=
  if ms.contains m then ms.filter (fun x => x ≠ m) else ms ++ [m]

/-- One row returned by the history endpoint (`ReadingDTO` in `history.ts`);
numeric JS values are modelled as rationals, `ts` in epoch seconds. -/
structure ReadingDTO where
  ts : Int
  device_id : String
  pm1 : ℚ
  pm25 : ℚ
  pm10 : ℚ
deriving DecidableEq, Repr

/-- Field access `d[metric]` of `MetricChart.tsx`. -/
def ReadingDTO.get (d : ReadingDTO) : Metric → ℚ
  | Metric.pm1 => d.pm1
  | Metric.pm25 => d.pm25
  | Metric.pm10 => d.pm10

/-- Default row, standing in for out-of-range indexing that the code never
performs on the taken branch. -/
def dfltDTO : ReadingDTO := ⟨0, "", 0, 0, 0⟩

/-- The `points` array of `MetricChart.tsx`: x is `ts * 1000` (ms), y is the
selected metric's value. -/
def chartPoints (metric : Metric) (data : List ReadingDTO) : List (Int × ℚ) :=
  data.map fun d => (d.ts * 1000, d.get metric)

/-- JS `Math.max(...)` over a spread list, as used on the non-empty branch. -/
def jsMax : List ℚ → ℚ
  | [] => 0
  | x :: xs => xs.foldl max x

/-- The `xDomain` of `MetricChart.tsx`: the hour ending at the last point's x
when there are points, else the hour ending now. -/
def xDomain (now : Int) (pts : List (Int × ℚ)) : Int × Int :=
  if pts.length > 0 then
    ((pts.getLastD (0, 0)).1 - 60 * 60 * 1000, (pts.getLastD (0, 0)).1)
  else
    (now - 60 * 60 * 1000, now)

/-- The `yDomain` of `MetricChart.tsx`: `[0, max y * 1.1]` when there are
points, else `[0, 10]`. -/
def yDomain (pts : List (Int × ℚ)) : ℚ × ℚ :=
  if pts.length > 0 then
    (0, jsMax (pts.map Prod.snd) * (11 / 10))
  else
    (0, 10)

/-- What the chart body renders (`MetricChart.tsx` lines 86–104): a line path
over the points, or the "No data" placeholder text. -/
inductive ChartBody where
  | line (pts : List (Int × ℚ))
  | noData
deriving DecidableEq, Repr

/-- The branch at line 86 of `MetricChart.tsx`. -/
def chartBody (pts : List (Int × ℚ)) : ChartBody :=
  if pts.length > 0 then ChartBody.line pts else ChartBody.noData

end Frontend

/-! ## Theorems -/

namespace AirQuality

/-- C4: DropOldest overflow semantics — with capacity 3, enqueuing A, B, C, D
in order leaves exactly [B, C, D] and dequeues return B, then C, then D; in
general, enqueue on a full queue (of positive capacity) evicts the head,
admits the new item, and keeps the queue size at K. -/
theorem dropOldest_overflow_semantics :
    (enqueueDrop (enqueueDrop (enqueueDrop (enqueueDrop
        (⟨3, []⟩ : BoundedQueue String) "A") "B") "C") "D"
      = ⟨3, ["B", "C", "D"]⟩ ∧
     dequeue (⟨3, ["B", "C", "D"]⟩ : BoundedQueue String)
      = some ("B", ⟨3, ["C", "D"]⟩) ∧
     dequeue (⟨3, ["C", "D"]⟩ : BoundedQueue String) = some ("C", ⟨3, ["D"]⟩) ∧
     dequeue (⟨3, ["D"]⟩ : BoundedQueue String) = some ("D", ⟨3, []⟩)) ∧
    ∀ (q : BoundedQueue Nat) (x : Nat),
      q.items.length = q.capacity → 0 < q.capacity →
        enqueue OverflowPolicy.dropOldest q x
            = EnqResult.ok ⟨q.capacity, q.items.tail ++ [x]⟩ ∧
          (q.items.tail ++ [x]).length = q.capacity := by
  constructor
  · refine ⟨by decide, by decide, by decide, by decide⟩
  · intro q x hfull hpos
    have hnotlt : ¬ q.items.length < q.capacity := by omega
    have hne : q.items ≠ [] := by
      intro h; rw [h] at hfull; simp at hfull; omega
    constructor
    · simp [enqueue, hnotlt]
    · have : q.items.tail.length = q.items.length - 1 := List.length_tail _
      simp [this]
      have : 0 < q.items.length := List.length_pos.mpr hne
      omega

/-- Witness for C4 at a concrete full queue of capacity 2. -/
theorem dropOldest_overflow_semantics_witness :
    enqueue OverflowPolicy.dropOldest (⟨2, [5, 6]⟩ : BoundedQueue Nat) 7
        = EnqResult.ok ⟨2, [6, 7]⟩ ∧
      (([5, 6] : List Nat).tail ++ [7]).length = 2 :=
  dropOldest_overflow_semantics.2 ⟨2, [5, 6]⟩ 7 (by decide) (by decide)

/-- C5: RejectNewest overflow atomicity — with capacity 3 and contents
[A, B, C], enqueue(D) leaves the queue unchanged and reports D rejected; in
general, enqueue with RejectNewest on a full queue returns the unchanged queue
together with the refused item as the signaled overflow event. -/
theorem rejectNewest_overflow_atomicity :
    (enqueue OverflowPolicy.rejectNewest
        (⟨3, ["A", "B", "C"]⟩ : BoundedQueue String) "D"
      = EnqResult.rejected ⟨3, ["A", "B", "C"]⟩ "D") ∧
    ∀ (q : BoundedQueue Nat) (x : Nat),
      ¬ q.items.length < q.capacity →
        enqueue OverflowPolicy.rejectNewest q x = EnqResult.rejected q x := by
  constructor
  · decide
  · intro q x hfull
    simp [enqueue, hfull]

/-- Witness for C5 at a concrete full queue. -/
theorem rejectNewest_overflow_atomicity_witness :
    enqueue OverflowPolicy.rejectNewest (⟨2, [5, 6]⟩ : BoundedQueue Nat) 7
      = EnqResult.rejected ⟨2, [5, 6]⟩ 7 :=
  rejectNewest_overflow_atomicity.2 ⟨2, [5, 6]⟩ 7 (by decide)

/-- C6: backoff monotonicity and reset — for every policy instance and every
failure count n, delay(n+1) ≥ delay(n), and after any success the loop's
failure counter resets so the next computed delay is delay(0). -/
theorem backoff_monotone_and_reset :
    ∀ (p : BackoffPolicy) (n : Nat),
      p.delay n ≤ p.delay (n + 1) ∧
      ∀ s : LoopState, nextDelay p (s.step SendResult.acked) = p.delay 0 := by
  intro p n
  constructor
  · cases p with
    | const d => exact le_refl _
    | linear s c =>
        exact min_le_min (Nat.mul_le_mul_left _ (Nat.le_succ n)) le_rfl
    | expo b c =>
        refine min_le_min (Nat.mul_le_mul_left _ ?_) le_rfl
        exact Nat.pow_le_pow_right (by norm_num) (Nat.le_succ n)
  · intro s
    rfl

/-- C7: mark_sent idempotence — marking the same id twice equals marking it
once (no error is possible: the operation is total), and when every record
carrying the id is already sent (including the vacuous case of an unknown id)
mark_sent is a no-op. -/
theorem mark_sent_idempotent (r : Ring) (id : Nat) :
    (r.mark_sent id).mark_sent id = r.mark_sent id ∧
    ((∀ rcd ∈ r.records, rcd.id = id → rcd.status = Status.sent) →
      r.mark_sent id = r) := by
  constructor
  · simp only [Ring.mark_sent, List.map_map]
    congr 1
    apply List.map_congr_left
    intro a _
    by_cases h : a.id = id <;> simp [h]
  · intro hsent
    cases r with
    | mk cap nid recs =>
        simp only [Ring.mark_sent]
        congr 1
        conv_rhs => rw [← List.map_id recs]
        apply List.map_congr_left
        intro a ha
        by_cases h : a.id = id
        · have := hsent a ha h
          cases a with
          | mk i rd st t => simp at this; simp [h, this]
        · simp [h]

/-- Witness for C7: a ring whose only record with id 1 is already sent. -/
theorem mark_sent_idempotent_witness :
    ((⟨3, 3, [⟨1, ⟨"dev", 0, 0⟩, Status.sent, 0⟩,
               ⟨2, ⟨"dev", 1, 0⟩, Status.pending, 0⟩]⟩ : Ring).mark_sent 1).mark_sent 1
        = (⟨3, 3, [⟨1, ⟨"dev", 0, 0⟩, Status.sent, 0⟩,
               ⟨2, ⟨"dev", 1, 0⟩, Status.pending, 0⟩]⟩ : Ring).mark_sent 1 ∧
      (⟨3, 3, [⟨1, ⟨"dev", 0, 0⟩, Status.sent, 0⟩,
               ⟨2, ⟨"dev", 1, 0⟩, Status.pending, 0⟩]⟩ : Ring).mark_sent 1
        = ⟨3, 3, [⟨1, ⟨"dev", 0, 0⟩, Status.sent, 0⟩,
               ⟨2, ⟨"dev", 1, 0⟩, Status.pending, 0⟩]⟩ :=
  ⟨(mark_sent_idempotent _ 1).1, (mark_sent_idempotent _ 1).2 (by decide)⟩

end AirQuality

namespace AirQuality

/-- If the broker first acknowledges at attempt `a + k` (within the horizon),
the publish phase emits exactly `k + 1` publishes of the same id followed by
one mark_sent, and reports success. -/
theorem publishAttempts_first_ack (ack : Nat → Bool) (id : Nat) :
    ∀ (k a fuel : Nat), k < fuel → ack (a + k) = true →
      (∀ j, j < k → ack (a + j) = false) →
      publishAttempts ack id a fuel =
        (List.replicate (k + 1) (Ev.publish id) ++ [Ev.markSent id], true) := by
  intro k
  induction k with
  | zero =>
      intro a fuel hk hack _
      cases fuel with
      | zero => omega
      | succ f =>
          have ha : ack a = true := by simpa using hack
          simp [publishAttempts, ha, List.replicate]
  | succ k ih =>
      intro a fuel hk hack hmin
      cases fuel with
      | zero => omega
      | succ f =>
          have h0 : ack a = false := by simpa using hmin 0 (Nat.succ_pos k)
          have hack2 : ack (a + 1 + k) = true := by
            rw [show a + 1 + k = a + (k + 1) by omega]; exact hack
          have hmin2 : ∀ j, j < k → ack (a + 1 + j) = false := by
            intro j hj
            rw [show a + 1 + j = a + (j + 1) by omega]
            exact hmin (j + 1) (by omega)
          have hrec := ih (a + 1) f (by omega) hack2 hmin2
          simp [publishAttempts, h0, hrec, List.replicate]

/-- The publish phase never calls append, and every event it emits refers to
the record id it was given. -/
theorem publishAttempts_events (ack : Nat → Bool) (id : Nat) :
    ∀ (fuel attempt : Nat),
      (publishAttempts ack id attempt fuel).1.filter Ev.isAppend = [] ∧
      ∀ e ∈ (publishAttempts ack id attempt fuel).1, e.evId = id := by
  intro fuel
  induction fuel with
  | zero => intro attempt; simp [publishAttempts]
  | succ f ih =>
      intro attempt
      obtain ⟨h1, h2⟩ := ih (attempt + 1)
      by_cases h : ack attempt
      · simp [publishAttempts, h, Ev.isAppend, Ev.evId]
      · constructor
        · simp [publishAttempts, h, List.filter_cons, Ev.isAppend, h1]
        · intro e he
          simp [publishAttempts, h] at he
          rcases he with rfl | hm
          · rfl
          · exact h2 e hm

/-- A record that is sent in the ring stays sent after any further ring
operation: append leaves existing records untouched, and mark_sent only moves
records to sent. -/
theorem sentIn_applyOp (r : Ring) (i : Nat) (op : RingOp) (h : sentIn r i) :
    sentIn (r.applyOp op) i := by
  obtain ⟨rcd, hmem, hid, hst⟩ := h
  cases op with
  | app rd t =>
      unfold Ring.applyOp Ring.append
      by_cases hc : r.pendingCount < r.capacity
      · simp only [hc, if_true]
        exact ⟨rcd, by simp [hmem], hid, hst⟩
      · simp only [hc, if_false]
        exact ⟨rcd, hmem, hid, hst⟩
  | mark j =>
      unfold Ring.applyOp Ring.mark_sent
      refine ⟨if rcd.id = j then { rcd with status := Status.sent } else rcd,
        List.mem_map_of_mem _ hmem, ?_, ?_⟩
      · by_cases h : rcd.id = j
        · simp [h, hid]
          omega
        · have h2 : i ≠ j := fun he => h (hid.trans he)
          simp [h2, hid]
      · by_cases h : rcd.id = j
        · simp [h, hid]
        · have h2 : i ≠ j := fun he => h (hid.trans he)
          simp [h2, hid, hst]

/-- C1: at-least-once delivery with no early retirement — if the broker first
acknowledges at attempt k within the retry horizon, delivery of an appended
record succeeds and its full call trace is the append, then k+1 publishes,
then a single mark_sent: mark_sent is invoked only after the acknowledged
publish, the record transitions pending→sent exactly once (one mark_sent in
the trace), and a sent record is never resurrected by any later ring
operation. -/
theorem at_least_once_delivery (ack : Nat → Bool) (id fuel k : Nat)
    (hk : k < fuel) (hack : ack k = true)
    (hmin : ∀ j, j < k → ack j = false) :
    (deliverOne ack id fuel).2 = true ∧
    (deliverOne ack id fuel).1 =
      Ev.append id ::
        (List.replicate (k + 1) (Ev.publish id) ++ [Ev.markSent id]) ∧
    (deliverOne ack id fuel).1.count (Ev.markSent id) = 1 ∧
    ∀ (r : Ring) (i : Nat) (op : RingOp), sentIn r i → sentIn (r.applyOp op) i := by
  have hchar := publishAttempts_first_ack ack id k 0 fuel hk (by simpa using hack)
    (by intro j hj; simpa using hmin j hj)
  refine ⟨?_, ?_, ?_, ?_⟩
  · simp [deliverOne, hchar]
  · simp [deliverOne, hchar]
  · simp [deliverOne, hchar, List.count_cons, List.count_append,
      List.count_replicate, List.count_singleton]
  · intro r i op h
    exact sentIn_applyOp r i op h

/-- Witness for C1: broker acknowledges at the second attempt (k = 1) within
horizon 3; a concrete sent record survives a further mark operation. -/
theorem at_least_once_delivery_witness :
    (deliverOne (fun n => decide (n = 1)) 7 3).2 = true ∧
    (deliverOne (fun n => decide (n = 1)) 7 3).1 =
      Ev.append 7 ::
        (List.replicate 2 (Ev.publish 7) ++ [Ev.markSent 7]) ∧
    (deliverOne (fun n => decide (n = 1)) 7 3).1.count (Ev.markSent 7) = 1 ∧
    sentIn ((⟨2, 2, [⟨1, ⟨"dev", 0, 0⟩, Status.sent, 0⟩]⟩ : Ring).applyOp
      (RingOp.mark 1)) 1 := by
  have h := at_least_once_delivery (fun n => decide (n = 1)) 7 3 1
    (by decide) (by decide) (by decide)
  exact ⟨h.1, h.2.1, h.2.2.1, h.2.2.2 _ 1 (RingOp.mark 1) (by decide)⟩

/-- C2: no duplicate durable entries — over the whole delivery of one appended
record, append is called exactly once (the filtered trace of appends is the
single initial append), and every retried publish (and every other call)
refers to the same record id. -/
theorem no_duplicate_durable_entries (ack : Nat → Bool) (id fuel : Nat) :
    (deliverOne ack id fuel).1.filter Ev.isAppend = [Ev.append id] ∧
    ∀ e ∈ (deliverOne ack id fuel).1, e.evId = id := by
  obtain ⟨h1, h2⟩ := publishAttempts_events ack id fuel 0
  constructor
  · simp [deliverOne, List.filter_cons, Ev.isAppend, h1]
  · intro e he
    simp only [deliverOne, List.mem_cons] at he
    rcases he with rfl | hm
    · rfl
    · exact h2 e hm

/-- C3: crash recovery order — iterate_pending returns exactly the pending
records of the ring, their ids in strictly ascending order (given the ring id
invariant), and when the pending ids are 1..N the startup attempt order is
1..N before any newly arriving reading's id. -/
theorem crash_recovery_order (r : Ring) (hwf : RingWf r) (N : Nat)
    (hp : r.iterate_pending.map (fun rcd => rcd.id) = List.range' 1 N)
    (newIds : List Nat) :
    (∀ rcd, rcd ∈ r.iterate_pending ↔
      rcd ∈ r.records ∧ rcd.status = Status.pending) ∧
    (r.iterate_pending.map (fun rcd => rcd.id)).Pairwise (· < ·) ∧
    startupAttemptIds r newIds = List.range' 1 N ++ newIds := by
  refine ⟨?_, ?_, ?_⟩
  · intro rcd
    simp [Ring.iterate_pending, List.mem_filter]
  · have hsub : List.Sublist (r.iterate_pending.map (fun rcd => rcd.id))
        (r.records.map (fun rcd => rcd.id)) :=
      List.Sublist.map _ (List.filter_sublist _)
    exact hwf.sublist hsub
  · unfold startupAttemptIds
    rw [hp]

/-- Concrete ring for the C3 witness: pending ids 1, 2 and a sent id 3. -/
def ringEx : Ring :=
  ⟨5, 4, [⟨1, ⟨"dev", 0, 0⟩, Status.pending, 0⟩,
          ⟨2, ⟨"dev", 1, 0⟩, Status.pending, 1⟩,
          ⟨3, ⟨"dev", 2, 0⟩, Status.sent, 2⟩]⟩

/-- Witness for C3 on `ringEx` with one newly arriving id 9. -/
theorem crash_recovery_order_witness :
    (ringEx.iterate_pending.map (fun rcd => rcd.id)).Pairwise (· < ·) ∧
    startupAttemptIds ringEx [9] = List.range' 1 2 ++ [9] :=
  ⟨(crash_recovery_order ringEx (by decide) 2 (by decide) [9]).2.1,
   (crash_recovery_order ringEx (by decide) 2 (by decide) [9]).2.2⟩

end AirQuality

namespace Frontend

/-- C8: the history request URL carries query parameters drawn only from
room, from, to, metrics; room and metrics are always set, and from and to are
set exactly when their filter values are non-empty strings. -/
theorem historyQueryParams_keys (f : Filters) :
    (∀ kv ∈ historyQueryParams f,
        kv.1 = "room" ∨ kv.1 = "from" ∨ kv.1 = "to" ∨ kv.1 = "metrics") ∧
    "room" ∈ (historyQueryParams f).map Prod.fst ∧
    "metrics" ∈ (historyQueryParams f).map Prod.fst ∧
    ("from" ∈ (historyQueryParams f).map Prod.fst ↔ f.fromStr ≠ "") ∧
    ("to" ∈ (historyQueryParams f).map Prod.fst ↔ f.toStr ≠ "") := by
  by_cases h1 : f.fromStr = "" <;> by_cases h2 : f.toStr = "" <;>
    simp [historyQueryParams, h1, h2]

/-- Witness for C8 with from unset and to set. -/
theorem historyQueryParams_keys_witness :
    ((("room", "kitchen") : String × String).1 = "room" ∨
      (("room", "kitchen") : String × String).1 = "from" ∨
      (("room", "kitchen") : String × String).1 = "to" ∨
      (("room", "kitchen") : String × String).1 = "metrics") ∧
    "room" ∈ (historyQueryParams ⟨"kitchen", [Metric.pm1], "", "2024", true⟩).map Prod.fst ∧
    "metrics" ∈ (historyQueryParams ⟨"kitchen", [Metric.pm1], "", "2024", true⟩).map Prod.fst ∧
    ("from" ∈ (historyQueryParams ⟨"kitchen", [Metric.pm1], "", "2024", true⟩).map Prod.fst
      ↔ ("" : String) ≠ "") ∧
    ("to" ∈ (historyQueryParams ⟨"kitchen", [Metric.pm1], "", "2024", true⟩).map Prod.fst
      ↔ ("2024" : String) ≠ "") := by
  have h := historyQueryParams_keys ⟨"kitchen", [Metric.pm1], "", "2024", true⟩
  exact ⟨h.1 ("room", "kitchen") (by decide), h.2.1, h.2.2.1, h.2.2.2.1, h.2.2.2.2⟩

/-- C9: toggleMetric flips exactly the membership of the toggled metric,
leaves every other metric's membership unchanged, and toggling twice restores
the original set of selected metrics. -/
theorem toggleMetric_membership (ms : List Metric) (m : Metric) :
    (m ∈ toggleMetric m ms ↔ m ∉ ms) ∧
    (∀ x, x ≠ m → (x ∈ toggleMetric m ms ↔ x ∈ ms)) ∧
    (∀ x, x ∈ toggleMetric m (toggleMetric m ms) ↔ x ∈ ms) := by
  by_cases hm : m ∈ ms
  · refine ⟨?_, ?_, ?_⟩
    · simp [toggleMetric, hm, List.mem_filter]
    · intro x hx
      simp [toggleMetric, hm, List.mem_filter, hx]
    · intro x
      have hnot : m ∉ ms.filter (fun x => x ≠ m) := by
        simp [List.mem_filter]
      by_cases hx : x = m
      · subst hx
        simp [toggleMetric, hm, hnot, List.mem_filter, List.mem_append]
      · simp [toggleMetric, hm, hnot, List.mem_filter, List.mem_append, hx]
  · refine ⟨?_, ?_, ?_⟩
    · simp [toggleMetric, hm]
    · intro x hx
      simp [toggleMetric, hm, List.mem_append, hx]
    · intro x
      have h2 : m ∈ ms ++ [m] := by simp
      by_cases hx : x = m
      · subst hx
        simp [toggleMetric, hm, h2, List.mem_filter]
      · simp [toggleMetric, hm, h2, List.mem_filter, List.mem_append, hx]

/-- Witness for C9 on the list [pm1, pm25] toggling pm1. -/
theorem toggleMetric_membership_witness :
    (Metric.pm1 ∈ toggleMetric Metric.pm1 [Metric.pm1, Metric.pm25] ↔
      Metric.pm1 ∉ [Metric.pm1, Metric.pm25]) ∧
    (Metric.pm25 ∈ toggleMetric Metric.pm1 [Metric.pm1, Metric.pm25] ↔
      Metric.pm25 ∈ [Metric.pm1, Metric.pm25]) ∧
    (Metric.pm10 ∈ toggleMetric Metric.pm1
        (toggleMetric Metric.pm1 [Metric.pm1, Metric.pm25]) ↔
      Metric.pm10 ∈ [Metric.pm1, Metric.pm25]) := by
  have h := toggleMetric_membership [Metric.pm1, Metric.pm25] Metric.pm1
  exact ⟨h.1, h.2.1 Metric.pm25 (by decide), h.2.2 Metric.pm10⟩

/-- The y coordinates of the chart points are the selected metric's values. -/
theorem chartPoints_map_snd (metric : Metric) (data : List ReadingDTO) :
    (chartPoints metric data).map Prod.snd = data.map (fun d => d.get metric) := by
  simp [chartPoints, List.map_map]

/-- The last chart point comes from the last data row. -/
theorem chartPoints_getLastD (metric : Metric) (data : List ReadingDTO)
    (h : data ≠ []) :
    (chartPoints metric data).getLastD (0, 0) =
      ((data.getLastD dfltDTO).ts * 1000, (data.getLastD dfltDTO).get metric) := by
  rw [List.getLastD_eq_getLast?, List.getLastD_eq_getLast?]
  unfold chartPoints
  rw [List.getLast?_map, List.getLast?_eq_getLast data h]
  rfl

/-- C10: MetricChart fallback and domains — with an empty history list the
chart renders the "No data" placeholder with x domain the hour ending now and
y domain [0, 10]; with a non-empty list it renders a line path, the y domain
is [0, 1.1 × max metric value] and the x domain is the hour ending at the
last point's timestamp (ts × 1000 ms). -/
theorem metricChart_rendering (metric : Metric) (data : List ReadingDTO)
    (now : Int) :
    (data = [] →
      chartBody (chartPoints metric data) = ChartBody.noData ∧
      xDomain now (chartPoints metric data) = (now - 60 * 60 * 1000, now) ∧
      yDomain (chartPoints metric data) = (0, 10)) ∧
    (data ≠ [] →
      chartBody (chartPoints metric data)
          = ChartBody.line (chartPoints metric data) ∧
      yDomain (chartPoints metric data)
          = (0, jsMax (data.map (fun d => d.get metric)) * (11 / 10)) ∧
      xDomain now (chartPoints metric data)
          = ((data.getLastD dfltDTO).ts * 1000 - 60 * 60 * 1000,
             (data.getLastD dfltDTO).ts * 1000)) := by
  constructor
  · intro h
    subst h
    simp [chartPoints, chartBody, xDomain, yDomain]
  · intro h
    have hlen : 0 < (chartPoints metric data).length := by
      simpa [chartPoints, List.length_pos] using h
    refine ⟨?_, ?_, ?_⟩
    · simp [chartBody, hlen]
    · simp [yDomain, hlen, chartPoints_map_snd]
    · unfold xDomain
      rw [if_pos hlen, chartPoints_getLastD metric data h]

/-- Concrete one-row history for the C10 witness. -/
def dataEx : List ReadingDTO := [⟨10, "dev", 1, 2, 3⟩]

/-- Witness for C10 on the non-empty branch with one data row. -/
theorem metricChart_rendering_witness :
    chartBody (chartPoints Metric.pm25 dataEx)
        = ChartBody.line (chartPoints Metric.pm25 dataEx) ∧
      yDomain (chartPoints Metric.pm25 dataEx)
        = (0, jsMax (dataEx.map (fun d => d.get Metric.pm25)) * (11 / 10)) ∧
      xDomain 0 (chartPoints Metric.pm25 dataEx)
        = ((dataEx.getLastD dfltDTO).ts * 1000 - 60 * 60 * 1000,
           (dataEx.getLastD dfltDTO).ts * 1000) :=
  (metricChart_rendering Metric.pm25 dataEx 0).2 (by simp [dataEx])

end Frontend

namespace AirQuality

/-- Witness for C2: two failed publish attempts of record 4 — the trace
contains the single append, and a retried publish event carries the same id. -/
theorem no_duplicate_durable_entries_witness :
    (deliverOne (fun _ => false) 4 2).1.filter Ev.isAppend = [Ev.append 4] ∧
    (Ev.publish 4).evId = 4 := by
  have h := no_duplicate_durable_entries (fun _ => false) 4 2
  exact ⟨h.1, h.2 (Ev.publish 4) (by decide)⟩

end AirQuality
